import Mathlib

/-!
Verification of the matching + arbitrage-evaluation core of the
prediction-market arbitrage dashboard (files
`prediction_arbitrage_dashboard.py` and `prediction_arbitrage_dashboard-2.py`).

Shallow embedding conventions:
* A market is a record whose fields are `Option`-valued: `none` stands for a
  dictionary key that is missing (or holds a value of the wrong shape, e.g. a
  price that `float(...)` cannot convert).
* Python floats are modelled as rationals `ℚ`; Python's `round(x, n)`
  (round-half-to-even) is modelled exactly on `ℚ` by `pyRound`.
* Code that can raise (`m['title']` on a dict without the key) is embedded in
  `Except String`; code wrapped in `try/except ... return None` is embedded as
  an `Option`-valued total function.
* The OpenAI embedding collaborator and sklearn's `cosine_similarity` are
  opaque pure collaborators: they are taken as function parameters
  (`embed : String → List ℚ`, `cos : List ℚ → List ℚ → ℚ`).
* Python's `str.lower` is modelled per character by Lean's `Char.toLower`
  (ASCII case folding).
-/

namespace Arbdash

/-! ## Data model -/

/-- One entry of `market['order_books']['yes']['bids']`; `price` is `none` when
the `'price'` key is missing or not convertible by `float`. -/
structure KalshiBid where
  price : Option ℚ
deriving DecidableEq

/-- `market['order_books']['yes']`; `bids` is `none` when the `'bids'` key is
missing or not a list. -/
structure KalshiYesBook where
  bids : Option (List KalshiBid)
deriving DecidableEq

/-- `market['order_books']`; `yes` is `none` when the `'yes'` key is missing. -/
structure KalshiOrderBooks where
  yes : Option KalshiYesBook
deriving DecidableEq

/-- A Kalshi market dict: the `'title'` key (missing / non-string → `none`) and
the `'order_books'` subtree. -/
structure KalshiMarket where
  title : Option String
  order_books : Option KalshiOrderBooks
deriving DecidableEq

/-- One entry of a Polymarket `'outcomes'` list: `name` is `none` when the
`'name'` key is missing or not a string, `price` when `'price'` is missing or
not convertible by `float`. -/
structure PolyOutcome where
  name : Option String
  price : Option ℚ
deriving DecidableEq

/-- A Polymarket market dict: the three possible title keys (`none` = key
missing or JSON null) and the `'outcomes'` list. -/
structure PolyMarket where
  question : Option String
  title : Option String
  slug : Option String
  outcomes : Option (List PolyOutcome)
deriving DecidableEq

/-- A match produced by the exact matcher `match_markets`:
`{'name': ..., 'kalshi': ..., 'polymarket': ...}`. -/
structure MatchedPair where
  name : String
  kalshi : KalshiMarket
  polymarket : PolyMarket
deriving DecidableEq

/-- A match produced by the embedding matcher `match_markets_ai`; additionally
carries `'similarity': round(sim, 3)`. -/
structure MatchedPairAI where
  name : String
  kalshi : KalshiMarket
  polymarket : PolyMarket
  similarity : ℚ
deriving DecidableEq

/-- One row appended to `rows` by the evaluation loop. `is_arb` models the
boolean behind the `'Arbitrage?'` column; `profit` is `none` when the row shows
the empty string instead of a profit figure. -/
structure OpportunityRow where
  market : String
  kalshi_yes : ℚ
  polymarket_no : ℚ
  total_cost : ℚ
  is_arb : Bool
  profit : Option ℚ
deriving DecidableEq

/-! ## Python rounding on rationals

`round(x, d)` in Python is round-half-to-even at `d` decimal digits; on exact
rationals that is `pyRound`. -/

/-- Round-half-to-even of a rational to an integer. -/
def pyRoundInt (q : ℚ) : ℤ :=
  let n : ℤ := ⌊q⌋
  let f : ℚ := q - (n : ℚ)
  if f < 1/2 then n
  else if 1/2 < f then n + 1
  else if n % 2 = 0 then n else n + 1

/-- Python's `round(q, d)` on exact rationals. -/
def pyRound (q : ℚ) (d : ℕ) : ℚ :=
  (pyRoundInt (q * 10 ^ d) : ℚ) / 10 ^ d

/-! ## Title normalization (exact-match strategy)

`normalize_title(title)` is
`title.lower().replace("?", "").replace(",", "").replace(" ", "").strip()`.
The three single-character `replace`s with `""` are embedded as one filter
that drops `'?'`, `','` and `' '`; `.strip()` drops Python whitespace from
both ends (after the space-removal only non-space whitespace can remain). -/

/-- Characters removed by the three `replace(c, "")` calls. -/
def removedChar (c : Char) : Bool :=
  c = '?' || c = ',' || c = ' '

/-- Characters stripped from the ends by Python's `str.strip()`. -/
def pyStrippable (c : Char) : Bool :=
  c = ' ' || c = '\t' || c = '\n' || c = '\r' || c = '\x0b' || c = '\x0c'

/-- `str.strip()` on a character list: drop strippable characters from both
ends. -/
def stripChars (l : List Char) : List Char :=
  ((l.dropWhile pyStrippable).reverse.dropWhile pyStrippable).reverse

/-- `normalize_title` from the source: lowercase, drop `'?'`, `','`, `' '`,
then strip. -/
def normalize_title (t : String) : String :=
  String.mk (stripChars ((t.data.map Char.toLower).filter (fun c => !removedChar c)))

/-! ## Exact matcher `match_markets`

`kalshi_lookup = {normalize_title(m['title']): m for m in kalshi}` is embedded
as a function `String → Option KalshiMarket` built left to right, a later
market overwriting an earlier one on the same key (dict semantics: last write
wins).  `m['title']` on a market without a title raises `KeyError`, so the
builder and the matcher live in `Except String`. -/

/-- The dict comprehension building `kalshi_lookup`.  Raises (returns
`Except.error`) at the first market whose `'title'` key is missing. -/
def kalshi_lookup : List KalshiMarket → Except String (String → Option KalshiMarket)
  | [] => Except.ok (fun _ => none)
  | m :: rest =>
    match m.title with
    | none => Except.error "KeyError: title"
    | some t =>
      match kalshi_lookup rest with
      | Except.error e => Except.error e
      | Except.ok d =>
        Except.ok (fun key => (d key).or (if key = normalize_title t then some m else none))

/-- The `for pm in polymarkets` loop of `match_markets`: look up
`normalize_title(pm['title'])` and append a match on a hit.  `pm['title']`
raises on a market without the key. -/
def polyLoop (d : String → Option KalshiMarket) :
    List PolyMarket → Except String (List MatchedPair)
  | [] => Except.ok []
  | pm :: rest =>
    match pm.title with
    | none => Except.error "KeyError: title"
    | some t =>
      match d (normalize_title t) with
      | some km =>
        match polyLoop d rest with
        | Except.error e => Except.error e
        | Except.ok ms => Except.ok (⟨t, km, pm⟩ :: ms)
      | none => polyLoop d rest

/-- `match_markets(kalshi, polymarkets)` from the source. -/
def match_markets (kalshi : List KalshiMarket) (polymarkets : List PolyMarket) :
    Except String (List MatchedPair) :=
  match kalshi_lookup kalshi with
  | Except.error e => Except.error e
  | Except.ok d => polyLoop d polymarkets

/-! ## Price extractors (both wrapped in `try/except: return None`) -/

/-- `get_kalshi_yes_bid`: `float(market['order_books']['yes']['bids'][0]['price'])`,
`None` on any failure. -/
def get_kalshi_yes_bid (market : KalshiMarket) : Option ℚ :=
  market.order_books.bind fun ob =>
    ob.yes.bind fun ys =>
      ys.bids.bind fun bs =>
        bs.head?.bind fun b => b.price

/-- Python's `str.lower()` on a whole string (per-character ASCII case
folding, same model as in `normalize_title`). -/
def pyLowerStr (s : String) : String :=
  String.mk (s.data.map Char.toLower)

/-- The `for o in outcomes` scan of `get_polymarket_no_price`: the first
outcome whose lowercased name is `"no"` yields its price; a missing `'name'`
key raises inside the `try`, so the whole call degrades to `none`. -/
def noScan : List PolyOutcome → Option ℚ
  | [] => none
  | o :: rest =>
    match o.name with
    | none => none
    | some n => if pyLowerStr n = "no" then o.price else noScan rest

/-- `get_polymarket_no_price`: scan `market['outcomes']` for an outcome named
(case-insensitively) `"no"`; `None` on any failure or when absent. -/
def get_polymarket_no_price (market : PolyMarket) : Option ℚ :=
  market.outcomes.bind noScan

/-! ## Arbitrage evaluation and result assembly -/

/-- `calculate_profit(total_cost, stake)`: `round(stake - total_cost*stake, 2)`. -/
def calculate_profit (total_cost : ℚ) (stake : ℚ) : ℚ :=
  pyRound (stake - total_cost * stake) 2

/-- One iteration of the `for pair in matches` evaluation loop: `none` when it
executes `continue` (a null price), otherwise the appended row. -/
def evaluate (pair : MatchedPair) (stake : ℚ) : Option OpportunityRow :=
  match get_kalshi_yes_bid pair.kalshi, get_polymarket_no_price pair.polymarket with
  | some k_price, some p_price =>
    let total := k_price + p_price
    some ⟨pair.name, pyRound k_price 3, pyRound p_price 3, pyRound total 3,
      decide (total < 1),
      if total < 1 then some (calculate_profit total stake) else none⟩
  | _, _ => none

/-- The whole evaluation loop: the `rows` list in order. -/
def buildRows (pairs : List MatchedPair) (stake : ℚ) : List OpportunityRow :=
  pairs.filterMap fun pair => evaluate pair stake

/-- The comparison behind `df.sort_values(by='Total Cost')`. -/
def rowLe (r s : OpportunityRow) : Bool :=
  r.total_cost ≤ s.total_cost

/-- `df.sort_values(by='Total Cost')`: ascending sort on the `'Total Cost'`
column (pandas guarantees the order, not stability; a mergesort realizes it). -/
def sort_values (rows : List OpportunityRow) : List OpportunityRow :=
  rows.mergeSort rowLe

/-- The ordered row list handed to the display (`st.dataframe`). -/
def displayRows (pairs : List MatchedPair) (stake : ℚ) : List OpportunityRow :=
  sort_values (buildRows pairs stake)

/-! ## Embedding matcher `match_markets_ai` (second source file) -/

/-- Python truthiness of an optional string field: missing / null / empty all
count as falsy in `a or b`. -/
def pyTruthy (o : Option String) : Bool :=
  match o with
  | some s => s ≠ ""
  | none => false

/-- `extract_polymarket_title(market)`:
`market.get('question') or market.get('title') or market.get('slug') or 'unknown'`. -/
def extract_polymarket_title (market : PolyMarket) : String :=
  if pyTruthy market.question then market.question.getD "unknown"
  else if pyTruthy market.title then market.title.getD "unknown"
  else if pyTruthy market.slug then market.slug.getD "unknown"
  else "unknown"

/-- The inner `for p in polymarkets` loop of `match_markets_ai` for a fixed
Kalshi market `k` with title `k_title` and embedding `k_embed`: re-embed each
Polymarket title, take the cosine similarity, and keep the pair when
`sim > 0.90`, storing `round(sim, 3)`. -/
def aiInner (embed : String → List ℚ) (cos : List ℚ → List ℚ → ℚ)
    (k_title : String) (k_embed : List ℚ) (k : KalshiMarket) :
    List PolyMarket → List MatchedPairAI
  | [] => []
  | p :: rest =>
    let sim := cos k_embed (embed (extract_polymarket_title p))
    if 9/10 < sim then
      ⟨k_title, k, p, pyRound sim 3⟩ :: aiInner embed cos k_title k_embed k rest
    else aiInner embed cos k_title k_embed k rest

/-- The outer `for k in kalshi` loop: `k['title']` raises on a Kalshi market
without the key; otherwise embed the title once for this iteration and run the
inner loop past every Polymarket market. -/
def aiOuter (embed : String → List ℚ) (cos : List ℚ → List ℚ → ℚ)
    (polymarkets : List PolyMarket) :
    List KalshiMarket → Except String (List MatchedPairAI)
  | [] => Except.ok []
  | k :: rest =>
    match k.title with
    | none => Except.error "KeyError: title"
    | some k_title =>
      match aiOuter embed cos polymarkets rest with
      | Except.error e => Except.error e
      | Except.ok ms =>
        Except.ok (aiInner embed cos k_title (embed k_title) k polymarkets ++ ms)

/-- `match_markets_ai(kalshi, polymarkets)` from the second source file,
parametrized by the opaque embedding and cosine collaborators. -/
def match_markets_ai (embed : String → List ℚ) (cos : List ℚ → List ℚ → ℚ)
    (kalshi : List KalshiMarket) (polymarkets : List PolyMarket) :
    Except String (List MatchedPairAI) :=
  aiOuter embed cos polymarkets kalshi

/-! ## Cached-embedding variant (spec §4.4's suggested fix)

Modelled from the spec: the source has no cached variant; §4.4 describes
"embedding each title once per pass, which preserves identical output".  The
cache embeds every distinct title of the pass once, and the pass then looks
embeddings up in the cache. -/

/-- Embed each distinct title of a pass exactly once. -/
def embedCache (embed : String → List ℚ) (titles : List String) :
    List (String × List ℚ) :=
  titles.dedup.map fun t => (t, embed t)

/-- Look a title up in the cache (falling back to the collaborator on a miss,
which cannot happen for titles of the pass). -/
def cachedEmbed (embed : String → List ℚ) (cache : List (String × List ℚ))
    (t : String) : List ℚ :=
  match cache.find? (fun e => e.1 == t) with
  | some e => e.2
  | none => embed t

/-- Modelled from the spec: `match_markets_ai` with each title of the pass
embedded once up front. -/
def match_markets_ai_cached (embed : String → List ℚ) (cos : List ℚ → List ℚ → ℚ)
    (kalshi : List KalshiMarket) (polymarkets : List PolyMarket) :
    Except String (List MatchedPairAI) :=
  match_markets_ai
    (cachedEmbed embed (embedCache embed
      (kalshi.filterMap (fun k => k.title) ++ polymarkets.map extract_polymarket_title)))
    cos kalshi polymarkets

/-! ## Characterization devices for the exact matcher -/

/-- The key under which a Kalshi market sits in `kalshi_lookup`. -/
def titleKey (m : KalshiMarket) : Option String :=
  m.title.map normalize_title

/-- What one source-B market contributes to `match_markets` given the lookup
dict `d`: a pair exactly when its normalized title is a key of `d`. -/
def matchF (d : String → Option KalshiMarket) (pm : PolyMarket) : Option MatchedPair :=
  pm.title.bind fun t => (d (normalize_title t)).map fun km => ⟨t, km, pm⟩

/-- The normalized-title key of the source-B side of a matched pair. -/
def pairKey (pr : MatchedPair) : Option String :=
  pr.polymarket.title.map normalize_title

/-! ## Concrete sample inputs used by witnesses and counterexamples -/

/-- A Kalshi market titled `"a"` (used by the C2 witness). -/
def c2Kalshi : List KalshiMarket := [⟨some "a", none⟩]

/-- One Polymarket market titled `"a"` (used by the C2 witness). -/
def c2Poly : List PolyMarket := [⟨none, some "a", none, none⟩]

/-- The single pair `match_markets c2Kalshi c2Poly` produces. -/
def c2Pair : MatchedPair := ⟨"a", ⟨some "a", none⟩, ⟨none, some "a", none, none⟩⟩

/-- A matched pair with YES bid 0.40 and NO price 0.55 (the C1 witness). -/
def c1Pair : MatchedPair :=
  ⟨"rain", ⟨some "rain", some ⟨some ⟨some [⟨some (2/5)⟩]⟩⟩⟩,
    ⟨none, some "rain", none, some [⟨some "No", some (11/20)⟩]⟩⟩

/-- A matched pair with YES bid 0.60 and NO price 0.55, total 1.15: no
arbitrage (the C6 witness). -/
def c6Pair : MatchedPair :=
  ⟨"sun", ⟨some "sun", some ⟨some ⟨some [⟨some (3/5)⟩]⟩⟩⟩,
    ⟨none, some "sun", none, some [⟨some "No", some (11/20)⟩]⟩⟩

/-- The row `evaluate` produces from `c6Pair` at stake 100. -/
def c6Row : OpportunityRow :=
  ⟨"sun", pyRound ((3:ℚ)/5) 3, pyRound ((11:ℚ)/20) 3, pyRound ((3:ℚ)/5 + 11/20) 3,
    decide ((3:ℚ)/5 + 11/20 < 1),
    if (3:ℚ)/5 + 11/20 < 1 then some (calculate_profit ((3:ℚ)/5 + 11/20) 100) else none⟩

/-- The pair the embedding matcher emits in the C5 witness instance. -/
def c5Pair : MatchedPairAI :=
  ⟨"a", ⟨some "a", none⟩, ⟨none, some "p", none, none⟩, pyRound ((19:ℚ)/20) 3⟩

/-- A Kalshi market with a complete order-book path (the C8 witness). -/
def c8Kalshi : KalshiMarket :=
  ⟨some "k", some ⟨some ⟨some [⟨some (2/5)⟩]⟩⟩⟩

/-- A Polymarket market whose only outcome is named `"Yes"` (the C8 witness:
no `"no"` outcome, so extraction is null). -/
def c8Poly : PolyMarket :=
  ⟨none, none, none, some [⟨some "Yes", some (1/2)⟩]⟩

/-- A Polymarket market whose `title` is present but empty (falsy) and whose
`question`/`slug` are absent (the C10 witness). -/
def c10Poly : PolyMarket :=
  ⟨none, some "", none, none⟩

/-! ## Helper lemmas: characters and stripping -/

/-- `Char.ofNat` on a valid codepoint round-trips through `toNat`. -/
theorem toNat_ofNat_valid (n : ℕ) (h : n.isValidChar) : (Char.ofNat n).toNat = n := by
  simp only [Char.ofNat, dif_pos h]
  rfl

/-- `Char.toLower` on an ASCII uppercase character adds 32. -/
theorem toLower_of_upper (d : Char) (h : d.toNat ≥ 65 ∧ d.toNat ≤ 90) :
    d.toLower = Char.ofNat (d.toNat + 32) := by
  simp [Char.toLower, h]

/-- `Char.toLower` fixes everything that is not ASCII uppercase. -/
theorem toLower_of_not_upper (d : Char) (h : ¬(d.toNat ≥ 65 ∧ d.toNat ≤ 90)) :
    d.toLower = d := by
  simp [Char.toLower, h]

/-- ASCII lowercasing is idempotent per character. -/
theorem toLower_idem (c : Char) : Char.toLower (Char.toLower c) = Char.toLower c := by
  by_cases h : c.toNat ≥ 65 ∧ c.toNat ≤ 90
  · have hv : (c.toNat + 32).isValidChar := Or.inl (by omega)
    have h2 : c.toLower.toNat = c.toNat + 32 := by
      rw [toLower_of_upper c h]; exact toNat_ofNat_valid _ hv
    have h3 : ¬(c.toLower.toNat ≥ 65 ∧ c.toLower.toNat ≤ 90) := by omega
    rw [toLower_of_not_upper c.toLower h3]
  · conv_lhs => rw [toLower_of_not_upper c h]

/-- `dropWhile` is idempotent. -/
theorem dropWhile_self {α} (p : α → Bool) (l : List α) :
    List.dropWhile p (List.dropWhile p l) = List.dropWhile p l := by
  induction l with
  | nil => rfl
  | cons a t ih =>
    by_cases h : p a
    · simp [List.dropWhile_cons, h, ih]
    · simp [List.dropWhile_cons, h]

/-- Everything surviving a strip was in the original list. -/
theorem stripChars_subset (l : List Char) : stripChars l ⊆ l := by
  intro c hc
  unfold stripChars at hc
  rw [List.mem_reverse] at hc
  have h1 := (List.dropWhile_suffix (l := (l.dropWhile pyStrippable).reverse)
    pyStrippable).subset hc
  rw [List.mem_reverse] at h1
  exact (List.dropWhile_suffix pyStrippable).subset h1

/-- Stripping both ends twice is the same as stripping once. -/
theorem stripChars_idem (l : List Char) : stripChars (stripChars l) = stripChars l := by
  unfold stripChars
  set y := l.dropWhile pyStrippable with hy
  set w := y.reverse.dropWhile pyStrippable with hw
  have h1 : List.dropWhile pyStrippable w.reverse = w.reverse := by
    cases hrev : w.reverse with
    | nil => rfl
    | cons c cs =>
      have hlast : w.getLast? = some c := by
        rw [← List.head?_reverse, hrev]
        rfl
      obtain ⟨t, ht⟩ := List.dropWhile_suffix (l := y.reverse) pyStrippable
      have hylast : y.reverse.getLast? = some c := by
        rw [← hw] at ht
        rw [← ht, List.getLast?_append, hlast]
        rfl
      have hhead : y.head? = some c := by
        rw [← List.getLast?_reverse]
        exact hylast
      have hc : pyStrippable c = false := by
        have h := List.head?_dropWhile_not pyStrippable l
        rw [← hy, hhead] at h
        exact h
      rw [List.dropWhile_cons, hc]
      simp
  rw [h1, List.reverse_reverse, dropWhile_self]

/-- A map whose function fixes every member is the identity. -/
theorem map_eq_self_of_mem {α} {f : α → α} {l : List α} (h : ∀ a ∈ l, f a = a) :
    l.map f = l := by
  induction l with
  | nil => rfl
  | cons a t ih => simp_all

/-! ## C7 -/

/-- C7: `normalize_title` (lowercase, drop `?`, `,` and spaces, then trim) is
idempotent: normalizing an already-normalized title changes nothing. -/
theorem C7_normalize_title_idem (t : String) :
    normalize_title (normalize_title t) = normalize_title t := by
  unfold normalize_title
  show String.mk (stripChars ((List.map Char.toLower
    (stripChars ((t.data.map Char.toLower).filter fun c => !removedChar c))).filter
      fun c => !removedChar c)) = _
  set r := stripChars ((t.data.map Char.toLower).filter fun c => !removedChar c) with hr
  have hmem : ∀ c ∈ r, c ∈ (t.data.map Char.toLower).filter fun c => !removedChar c :=
    fun c hc => stripChars_subset _ hc
  have hlow : r.map Char.toLower = r := by
    apply map_eq_self_of_mem
    intro c hc
    have h1 := (List.mem_filter.1 (hmem c hc)).1
    rw [List.mem_map] at h1
    obtain ⟨a, _, rfl⟩ := h1
    exact toLower_idem a
  have hfil : r.filter (fun c => !removedChar c) = r :=
    List.filter_eq_self.mpr fun c hc => (List.mem_filter.1 (hmem c hc)).2
  rw [hlow, hfil, hr, stripChars_idem]

/-! ## Helper lemmas: the exact matcher -/

/-- The lookup dict built by `kalshi_lookup` maps each key to the LAST market
of the input whose normalized title equals it (dict comprehension: last write
wins). -/
theorem kalshi_lookup_char (ms : List KalshiMarket) (d : String → Option KalshiMarket)
    (h : kalshi_lookup ms = Except.ok d) (key : String) :
    d key = ms.reverse.find? fun m => titleKey m = some key := by
  induction ms generalizing d with
  | nil =>
    unfold kalshi_lookup at h
    injection h with h
    subst h
    rfl
  | cons m rest ih =>
    unfold kalshi_lookup at h
    cases hm : m.title with
    | none => rw [hm] at h; exact Except.noConfusion h
    | some t =>
      rw [hm] at h
      cases hrest : kalshi_lookup rest with
      | error e => rw [hrest] at h; exact Except.noConfusion h
      | ok d0 =>
        rw [hrest] at h
        injection h with h
        subst h
        show (d0 key).or (if key = normalize_title t then some m else none)
          = (m :: rest).reverse.find? fun m => titleKey m = some key
        rw [ih d0 hrest, List.reverse_cons, List.find?_append]
        congr 1
        by_cases hkey : key = normalize_title t
        · simp [List.find?_cons, titleKey, hm, hkey]
        · have hkey2 : ¬(normalize_title t = key) := fun hh => hkey hh.symm
          simp [List.find?_cons, titleKey, hm, hkey, hkey2]

/-- A hit in the lookup dict is a member of the Kalshi input whose normalized
title is the key. -/
theorem lookup_some {ms : List KalshiMarket} {d : String → Option KalshiMarket}
    {key : String} {km : KalshiMarket} (h : kalshi_lookup ms = Except.ok d)
    (hk : d key = some km) : km ∈ ms ∧ titleKey km = some key := by
  rw [kalshi_lookup_char ms d h key] at hk
  refine ⟨List.mem_reverse.1 (List.mem_of_find?_eq_some hk), ?_⟩
  have h2 := List.find?_some hk
  exact of_decide_eq_true h2

/-- The `for pm in polymarkets` loop, when it completes, returns exactly the
in-order hits described by `matchF`. -/
theorem polyLoop_char (d : String → Option KalshiMarket) (ps : List PolyMarket)
    (pairs : List MatchedPair) (h : polyLoop d ps = Except.ok pairs) :
    pairs = ps.filterMap (matchF d) := by
  induction ps generalizing pairs with
  | nil =>
    unfold polyLoop at h
    injection h with h
    subst h
    rfl
  | cons pm rest ih =>
    unfold polyLoop at h
    cases hpm : pm.title with
    | none =>
      simp only [hpm] at h
      exact Except.noConfusion h
    | some t =>
      simp only [hpm] at h
      cases hd : d (normalize_title t) with
      | some km =>
        simp only [hd] at h
        cases hrest : polyLoop d rest with
        | error e =>
          simp only [hrest] at h
          exact Except.noConfusion h
        | ok ms =>
          simp only [hrest] at h
          injection h with h
          subst h
          rw [ih ms hrest, List.filterMap_cons]
          simp [matchF, hpm, hd]
      | none =>
        simp only [hd] at h
        rw [List.filterMap_cons]
        simpa [matchF, hpm, hd] using ih pairs h

/-- The lookup dict builds successfully when every Kalshi market has a title. -/
theorem kalshi_lookup_ok (ms : List KalshiMarket) (h : ∀ m ∈ ms, m.title.isSome) :
    ∃ d, kalshi_lookup ms = Except.ok d := by
  induction ms with
  | nil => exact ⟨_, rfl⟩
  | cons m rest ih =>
    obtain ⟨t, ht⟩ := Option.isSome_iff_exists.1 (h m (List.mem_cons_self m rest))
    obtain ⟨d0, hd0⟩ := ih fun x hx => h x (List.mem_cons_of_mem m hx)
    refine ⟨fun key => (d0 key).or (if key = normalize_title t then some m else none), ?_⟩
    unfold kalshi_lookup
    simp only [ht, hd0]

/-- The source-B loop completes when every source-B market has a title. -/
theorem polyLoop_ok (d : String → Option KalshiMarket) (ps : List PolyMarket)
    (h : ∀ pm ∈ ps, pm.title.isSome) : ∃ pairs, polyLoop d ps = Except.ok pairs := by
  induction ps with
  | nil => exact ⟨_, rfl⟩
  | cons pm rest ih =>
    obtain ⟨t, ht⟩ := Option.isSome_iff_exists.1 (h pm (List.mem_cons_self pm rest))
    obtain ⟨ms, hms⟩ := ih fun x hx => h x (List.mem_cons_of_mem pm hx)
    unfold polyLoop
    simp only [ht]
    cases hd : d (normalize_title t) with
    | none =>
      refine ⟨ms, ?_⟩
      simp only [hd]
      exact hms
    | some km =>
      refine ⟨⟨t, km, pm⟩ :: ms, ?_⟩
      simp only [hd, hms]

/-- A `filterMap` whose hits agree with a map is a sublist of that map. -/
theorem filterMap_sublist_of_map {α β : Type} (h : α → Option β) (g : α → β)
    (hg : ∀ a b, h a = some b → b = g a) (l : List α) :
    (l.filterMap h).Sublist (l.map g) := by
  induction l with
  | nil => simp
  | cons a t ih =>
    rw [List.filterMap_cons, List.map_cons]
    cases ha : h a with
    | none => exact ih.cons _
    | some b =>
      rw [hg a b ha]
      exact ih.cons₂ _

/-- Anatomy of a `matchF` hit. -/
theorem matchF_some {d : String → Option KalshiMarket} {pm : PolyMarket}
    {pr : MatchedPair} (hf : matchF d pm = some pr) :
    ∃ t km, pm.title = some t ∧ d (normalize_title t) = some km ∧
      pr = ⟨t, km, pm⟩ := by
  cases hpm : pm.title with
  | none => simp [matchF, hpm] at hf
  | some t =>
    cases hd : d (normalize_title t) with
    | none => simp [matchF, hpm, hd] at hf
    | some km =>
      simp only [matchF, hpm, hd, Option.some_bind] at hf
      have hf2 : ({ name := t, kalshi := km, polymarket := pm } : MatchedPair) = pr := by
        simpa using hf
      exact ⟨t, km, rfl, hd, hf2.symm⟩

/-! ## C4 -/

/-- C4: `match_markets` builds the normalized-title → Kalshi-market dict with
last write wins (`d key` is the last input market normalizing to `key`), then
emits, for each Polymarket market in order, exactly one pair when its
normalized title is a key of the dict (the `filterMap` characterization), and
both normalized titles of every emitted pair agree.  As a pure Lean function
the matcher is deterministic by construction. -/
theorem C4_match_markets_char (kalshi : List KalshiMarket) (polymarkets : List PolyMarket)
    (hk : ∀ m ∈ kalshi, m.title.isSome) (hp : ∀ pm ∈ polymarkets, pm.title.isSome) :
    ∃ d, kalshi_lookup kalshi = Except.ok d ∧
      (∀ key, d key = kalshi.reverse.find? fun m => titleKey m = some key) ∧
      match_markets kalshi polymarkets = Except.ok (polymarkets.filterMap (matchF d)) ∧
      ∀ pr ∈ polymarkets.filterMap (matchF d), ∃ tk tp,
        pr.kalshi.title = some tk ∧ pr.polymarket.title = some tp ∧
          normalize_title tk = normalize_title tp := by
  obtain ⟨d, hd⟩ := kalshi_lookup_ok kalshi hk
  refine ⟨d, hd, fun key => kalshi_lookup_char kalshi d hd key, ?_, ?_⟩
  · obtain ⟨pairs, hpairs⟩ := polyLoop_ok d polymarkets hp
    unfold match_markets
    simp only [hd]
    rw [hpairs, polyLoop_char d polymarkets pairs hpairs]
  · intro pr hpr
    rw [List.mem_filterMap] at hpr
    obtain ⟨pm, hpmm, hf⟩ := hpr
    obtain ⟨t, km, hpm, hdt, rfl⟩ := matchF_some hf
    have hkey := (lookup_some hd hdt).2
    cases hkmt : km.title with
    | none =>
      rw [titleKey, hkmt] at hkey
      simp at hkey
    | some tk =>
      rw [titleKey, hkmt] at hkey
      refine ⟨tk, t, rfl, hpm, ?_⟩
      simpa using hkey

/-- C4 witness: a one-market instance with matching titles, at which the
hypotheses hold and the characterization applies. -/
theorem C4_match_markets_char_witness :
    ∃ d, kalshi_lookup ([⟨some "b", none⟩] : List KalshiMarket) = Except.ok d ∧
      (∀ key, d key = ([⟨some "b", none⟩] : List KalshiMarket).reverse.find?
        fun m => titleKey m = some key) ∧
      match_markets [⟨some "b", none⟩] [⟨none, some "b", none, none⟩]
        = Except.ok (([⟨none, some "b", none, none⟩] : List PolyMarket).filterMap (matchF d)) ∧
      ∀ pr ∈ ([⟨none, some "b", none, none⟩] : List PolyMarket).filterMap (matchF d),
        ∃ tk tp, pr.kalshi.title = some tk ∧ pr.polymarket.title = some tp ∧
          normalize_title tk = normalize_title tp :=
  C4_match_markets_char [⟨some "b", none⟩] [⟨none, some "b", none, none⟩]
    (by intro m hm; rw [List.mem_singleton] at hm; subst hm; rfl)
    (by intro pm hpm; rw [List.mem_singleton] at hpm; subst hpm; rfl)

/-! ## C2 -/

/-- C2 counterexample: one Kalshi market titled `"x"` against two distinct
Polymarket markets titled `"x?"` and `"x,"` (all three normalize to `"x"`)
produces 2 pairs, exceeding `min 1 2 = 1`. -/
theorem C2_counterexample :
    (match_markets [⟨some "x", none⟩]
        [⟨none, some "x?", none, none⟩, ⟨none, some "x,", none, none⟩]).map List.length
      = Except.ok 2 ∧
    min (List.length ([⟨some "x", none⟩] : List KalshiMarket))
      (List.length ([⟨none, some "x?", none, none⟩,
        ⟨none, some "x,", none, none⟩] : List PolyMarket)) = 1 ∧
    ¬(2 ≤ 1) := by
  refine ⟨?_, rfl, by omega⟩
  rfl

/-- C2 (amended): the exact matcher emits at most one pair per source-B
market, so at most `|B|` pairs; the claimed `min |A| |B|` bound additionally
needs the source-B normalized titles to be pairwise distinct (two source-B
markets normalizing alike can both match the same source-A market). -/
theorem C2_match_bound (kalshi : List KalshiMarket) (polymarkets : List PolyMarket)
    (pairs : List MatchedPair) (h : match_markets kalshi polymarkets = Except.ok pairs) :
    pairs.length ≤ polymarkets.length ∧
      ((polymarkets.map fun pm => pm.title.map normalize_title).Nodup →
        pairs.length ≤ min kalshi.length polymarkets.length) := by
  unfold match_markets at h
  cases hl : kalshi_lookup kalshi with
  | error e => rw [hl] at h; exact Except.noConfusion h
  | ok d =>
    rw [hl] at h
    have hpairs := polyLoop_char d polymarkets pairs h
    subst hpairs
    refine ⟨List.length_filterMap_le _ _, fun hnodup =>
      le_min ?_ (List.length_filterMap_le _ _)⟩
    have hA : ((polymarkets.filterMap (matchF d)).map pairKey).Sublist
        (polymarkets.map fun pm => pm.title.map normalize_title) := by
      rw [List.map_filterMap]
      apply filterMap_sublist_of_map
      intro pm b hb
      cases hfm : matchF d pm with
      | none => rw [hfm] at hb; exact Option.noConfusion hb
      | some pr =>
        rw [hfm] at hb
        obtain ⟨t, km, hpm, hdt, rfl⟩ := matchF_some hfm
        have hb2 : pairKey ⟨t, km, pm⟩ = b := by simpa using hb
        rw [← hb2, pairKey, hpm]
    have hNodupKeys : ((polymarkets.filterMap (matchF d)).map pairKey).Nodup :=
      List.Nodup.sublist hA hnodup
    have hC : ∀ pr ∈ polymarkets.filterMap (matchF d), pairKey pr = titleKey pr.kalshi := by
      intro pr hpr
      rw [List.mem_filterMap] at hpr
      obtain ⟨pm, hpmm, hf⟩ := hpr
      obtain ⟨t, km, hpm, hdt, rfl⟩ := matchF_some hf
      have hkey := (lookup_some hl hdt).2
      rw [pairKey, hpm, hkey]
      rfl
    have hmapeq : (polymarkets.filterMap (matchF d)).map pairKey
        = ((polymarkets.filterMap (matchF d)).map fun pr => pr.kalshi).map titleKey := by
      rw [List.map_map]
      exact List.map_congr_left hC
    have hNodupK : ((polymarkets.filterMap (matchF d)).map fun pr => pr.kalshi).Nodup := by
      apply List.Nodup.of_map titleKey
      rw [← hmapeq]
      exact hNodupKeys
    have hsub : ∀ km ∈ (polymarkets.filterMap (matchF d)).map fun pr => pr.kalshi,
        km ∈ kalshi := by
      intro km hkm
      rw [List.mem_map] at hkm
      obtain ⟨pr, hpr, rfl⟩ := hkm
      rw [List.mem_filterMap] at hpr
      obtain ⟨pm, hpmm, hf⟩ := hpr
      obtain ⟨t, km2, hpm, hdt, rfl⟩ := matchF_some hf
      exact (lookup_some hl hdt).1
    have hle := (List.subperm_of_subset hNodupK hsub).length_le
    rw [List.length_map] at hle
    exact hle

/-- C2 witness (for the amended bound): the one-market instance, where the
matcher succeeds, the source-B normalized titles are distinct, and the bound
`1 ≤ min 1 1` follows by applying the theorem. -/
theorem C2_match_bound_witness :
    match_markets c2Kalshi c2Poly = Except.ok [c2Pair] ∧
      List.length [c2Pair] ≤ min c2Kalshi.length c2Poly.length := by
  have hm : match_markets c2Kalshi c2Poly = Except.ok [c2Pair] := rfl
  refine ⟨hm, (C2_match_bound c2Kalshi c2Poly [c2Pair] hm).2 ?_⟩
  simp [c2Poly, List.nodup_cons]

/-! ## C3 -/

/-- The embedding matcher's outer loop completes when every Kalshi market has
a title (the Polymarket side cannot raise: `extract_polymarket_title` is
total). -/
theorem aiOuter_ok (embed : String → List ℚ) (cos : List ℚ → List ℚ → ℚ)
    (ps : List PolyMarket) (ks : List KalshiMarket)
    (h : ∀ k ∈ ks, k.title.isSome) :
    ∃ ms, aiOuter embed cos ps ks = Except.ok ms := by
  induction ks with
  | nil => exact ⟨[], rfl⟩
  | cons k rest ih =>
    obtain ⟨t, ht⟩ := Option.isSome_iff_exists.1 (h k (List.mem_cons_self k rest))
    obtain ⟨ms, hms⟩ := ih fun x hx => h x (List.mem_cons_of_mem k hx)
    unfold aiOuter
    simp only [ht, hms]
    exact ⟨_, rfl⟩

/-- C3 counterexample: a source-B market whose title lives under `question`
(no `title` key) makes the exact matcher raise `KeyError`, and a source-A
market without `title` makes the embedding matcher raise `KeyError`; neither
degrades to fewer results. -/
theorem C3_counterexample :
    match_markets [] [⟨some "q", none, none, none⟩] = Except.error "KeyError: title" ∧
    match_markets_ai (fun _ => []) (fun _ _ => 0) [⟨none, none⟩] []
      = Except.error "KeyError: title" :=
  ⟨rfl, rfl⟩

/-- C3 (amended): price extraction and row evaluation never raise (they are
`Option`-valued total functions, and evaluation only ever drops rows); when
every source-A market has a `title` key, the embedding matcher completes on
EVERY source-B list (its B side only goes through the total
`extract_polymarket_title`, so B markets titled under `question`/`slug`
are fine), and the exact matcher completes when additionally every source-B
market has a `title` key; but a market missing its `title` key where the
code bracket-indexes it makes the matchers raise `KeyError` instead of
degrading. -/
theorem C3_no_abort (embed : String → List ℚ) (cos : List ℚ → List ℚ → ℚ)
    (kalshi : List KalshiMarket) (polymarkets : List PolyMarket)
    (hk : ∀ m ∈ kalshi, m.title.isSome) :
    ((∀ pm ∈ polymarkets, pm.title.isSome) →
      ∃ ps, match_markets kalshi polymarkets = Except.ok ps) ∧
    (∃ qs, match_markets_ai embed cos kalshi polymarkets = Except.ok qs) ∧
    (∀ pairs stake, (buildRows pairs stake).length ≤ pairs.length) := by
  refine ⟨?_, ?_, fun pairs stake => List.length_filterMap_le _ _⟩
  · intro hp
    obtain ⟨d, hd⟩ := kalshi_lookup_ok kalshi hk
    obtain ⟨ps, hps⟩ := polyLoop_ok d polymarkets hp
    refine ⟨ps, ?_⟩
    unfold match_markets
    simp only [hd]
    exact hps
  · exact aiOuter_ok embed cos polymarkets kalshi hk

/-- C3 witness: with a titled source-A market and a source-B market titled
ONLY under `question` (no `title` key — the case the claim highlights), the
embedding matcher completes without error. -/
theorem C3_no_abort_witness :
    ((∀ pm ∈ ([⟨some "q", none, none, none⟩] : List PolyMarket), pm.title.isSome) →
      ∃ ps, match_markets [(⟨some "k", none⟩ : KalshiMarket)]
        [(⟨some "q", none, none, none⟩ : PolyMarket)] = Except.ok ps) ∧
    (∃ qs, match_markets_ai (fun _ => []) (fun _ _ => 0) [⟨some "k", none⟩]
      [⟨some "q", none, none, none⟩] = Except.ok qs) ∧
    (∀ pairs stake, (buildRows pairs stake).length ≤ pairs.length) :=
  C3_no_abort (fun _ => []) (fun _ _ => 0) [⟨some "k", none⟩] [⟨some "q", none, none, none⟩]
    (by intro m hm; rw [List.mem_singleton] at hm; subst hm; rfl)

/-! ## Helper lemmas: rounding -/

/-- Round-half-even of an integer is itself. -/
theorem pyRoundInt_intCast (n : ℤ) : pyRoundInt ((n : ℚ)) = n := by
  norm_num [pyRoundInt]

/-- Round-half-even prescription when the fractional part is below one half. -/
theorem pyRoundInt_of_fraclt (q : ℚ) (n : ℤ) (h1 : ⌊q⌋ = n) (h2 : q - (n : ℚ) < 1/2) :
    pyRoundInt q = n := by
  simp only [pyRoundInt, h1]
  rw [if_pos h2]

/-- Round-half-even never goes below the floor. -/
theorem pyRoundInt_ge_floor (q : ℚ) : ⌊q⌋ ≤ pyRoundInt q := by
  simp only [pyRoundInt]
  split
  · exact le_refl _
  · split
    · omega
    · split <;> omega

/-! ## C1 -/

/-- C1: the evaluation loop skips a pair (no row) exactly when either price
extraction is null; otherwise the row carries the prices and their sum
`total = priceA + priceB` rounded to 3 decimals, flags arbitrage iff
`total < 1.0`, and carries `profit = round(stake - total*stake, 2)` exactly
when the flag holds (else no profit figure). -/
theorem C1_evaluate_spec (pair : MatchedPair) (stake : ℚ) :
    ((get_kalshi_yes_bid pair.kalshi = none ∨ get_polymarket_no_price pair.polymarket = none) →
      evaluate pair stake = none) ∧
    (∀ k p, get_kalshi_yes_bid pair.kalshi = some k →
      get_polymarket_no_price pair.polymarket = some p →
      evaluate pair stake = some ⟨pair.name, pyRound k 3, pyRound p 3, pyRound (k + p) 3,
        decide (k + p < 1),
        if k + p < 1 then some (pyRound (stake - (k + p) * stake) 2) else none⟩) := by
  constructor
  · intro h
    rcases h with h | h
    · simp [evaluate, h]
    · cases hk : get_kalshi_yes_bid pair.kalshi <;> simp [evaluate, hk, h]
  · intro k p hk hp
    simp only [evaluate, hk, hp]
    rfl

/-- C1 witness: at priceA = 0.40, priceB = 0.55, stake = 100 the row reads
total = 0.95, arbitrage flagged, profit = 5.00. -/
theorem C1_evaluate_spec_witness :
    evaluate c1Pair 100 = some ⟨"rain", 2/5, 11/20, 19/20, true, some 5⟩ := by
  have h := (C1_evaluate_spec c1Pair 100).2 (2/5) (11/20) rfl rfl
  rw [h]
  have e1 : pyRound ((2:ℚ)/5) 3 = 2/5 := by
    have hv : ((2:ℚ)/5) * 10 ^ 3 = ((400:ℤ) : ℚ) := by norm_num
    rw [pyRound, hv, pyRoundInt_intCast]
    norm_num
  have e2 : pyRound ((11:ℚ)/20) 3 = 11/20 := by
    have hv : ((11:ℚ)/20) * 10 ^ 3 = ((550:ℤ) : ℚ) := by norm_num
    rw [pyRound, hv, pyRoundInt_intCast]
    norm_num
  have e3 : pyRound ((2:ℚ)/5 + 11/20) 3 = 19/20 := by
    have hv : ((2:ℚ)/5 + 11/20) * 10 ^ 3 = ((950:ℤ) : ℚ) := by norm_num
    rw [pyRound, hv, pyRoundInt_intCast]
    norm_num
  have e4 : decide ((2:ℚ)/5 + 11/20 < 1) = true := decide_eq_true (by norm_num)
  have e5 : (if (2:ℚ)/5 + 11/20 < 1 then
      some (pyRound ((100:ℚ) - ((2:ℚ)/5 + 11/20) * 100) 2) else none) = some 5 := by
    rw [if_pos (by norm_num : (2:ℚ)/5 + 11/20 < 1)]
    have hv : ((100:ℚ) - ((2:ℚ)/5 + 11/20) * 100) * 10 ^ 2 = ((500:ℤ) : ℚ) := by norm_num
    rw [pyRound, hv, pyRoundInt_intCast]
    norm_num
  rw [e1, e2, e3, e4, e5]
  rfl

/-! ## C6 -/

/-- C6: the list handed to the display is the evaluation loop's row list
sorted ascending on the `'Total Cost'` column; it is a permutation of the
built rows (no further filtering), and every pair whose two prices extract —
arbitrage or not — contributes a row that appears in the displayed list. -/
theorem C6_display_sorted (pairs : List MatchedPair) (stake : ℚ) :
    List.Sorted (fun r s : OpportunityRow => r.total_cost ≤ s.total_cost)
        (displayRows pairs stake) ∧
      (displayRows pairs stake).Perm (buildRows pairs stake) ∧
      (∀ pr ∈ pairs, ∀ r, evaluate pr stake = some r → r ∈ displayRows pairs stake) := by
  have hperm : (displayRows pairs stake).Perm (buildRows pairs stake) :=
    List.mergeSort_perm _ _
  refine ⟨?_, hperm, ?_⟩
  · have hs := @List.sorted_mergeSort OpportunityRow rowLe
      (fun a b c hab hbc => by
        simp only [rowLe, decide_eq_true_eq] at hab hbc ⊢
        exact le_trans hab hbc)
      (fun a b => by
        simp only [rowLe, Bool.or_eq_true, decide_eq_true_eq]
        exact le_total _ _)
      (buildRows pairs stake)
    exact List.Pairwise.imp
      (fun hab => by simpa [rowLe, decide_eq_true_eq] using hab) hs
  · intro pr hpr r hr
    have hmem : r ∈ buildRows pairs stake := List.mem_filterMap.2 ⟨pr, hpr, hr⟩
    exact hperm.mem_iff.2 hmem

/-- C6 witness: a single non-arbitrage pair (total 1.15) still shows up in the
displayed list. -/
theorem C6_display_sorted_witness :
    evaluate c6Pair 100 = some c6Row ∧ c6Row ∈ displayRows [c6Pair] 100 :=
  ⟨rfl, (C6_display_sorted [c6Pair] 100).2.2 c6Pair (List.mem_cons_self c6Pair []) c6Row rfl⟩

/-! ## C5 -/

/-- Anatomy of a pair emitted by the inner loop of the embedding matcher. -/
theorem aiInner_mem {embed : String → List ℚ} {cos : List ℚ → List ℚ → ℚ}
    {kt : String} {ke : List ℚ} {k : KalshiMarket} {ps : List PolyMarket}
    {pr : MatchedPairAI} (h : pr ∈ aiInner embed cos kt ke k ps) :
    ∃ p ∈ ps, 9/10 < cos ke (embed (extract_polymarket_title p)) ∧
      pr = ⟨kt, k, p, pyRound (cos ke (embed (extract_polymarket_title p))) 3⟩ := by
  induction ps with
  | nil => exact absurd h (List.not_mem_nil pr)
  | cons p rest ih =>
    simp only [aiInner] at h
    by_cases hlt : 9/10 < cos ke (embed (extract_polymarket_title p))
    · rw [if_pos hlt] at h
      rcases List.mem_cons.1 h with h1 | h2
      · exact ⟨p, List.mem_cons_self p rest, hlt, h1⟩
      · obtain ⟨q, hq, h3, h4⟩ := ih h2
        exact ⟨q, List.mem_cons_of_mem p hq, h3, h4⟩
    · rw [if_neg hlt] at h
      obtain ⟨q, hq, h3, h4⟩ := ih h
      exact ⟨q, List.mem_cons_of_mem p hq, h3, h4⟩

/-- Every pair emitted by the outer loop comes from one Kalshi market's inner
loop. -/
theorem aiOuter_mem {embed : String → List ℚ} {cos : List ℚ → List ℚ → ℚ}
    {ps : List PolyMarket} {ks : List KalshiMarket} {ms : List MatchedPairAI}
    (h : aiOuter embed cos ps ks = Except.ok ms) {pr : MatchedPairAI} (hpr : pr ∈ ms) :
    ∃ k ∈ ks, ∃ t, k.title = some t ∧ pr ∈ aiInner embed cos t (embed t) k ps := by
  induction ks generalizing ms with
  | nil =>
    unfold aiOuter at h
    injection h with h
    subst h
    exact absurd hpr (List.not_mem_nil pr)
  | cons k rest ih =>
    unfold aiOuter at h
    cases hk : k.title with
    | none =>
      simp only [hk] at h
      exact Except.noConfusion h
    | some t =>
      simp only [hk] at h
      cases hrest : aiOuter embed cos ps rest with
      | error e =>
        simp only [hrest] at h
        exact Except.noConfusion h
      | ok ms2 =>
        simp only [hrest] at h
        injection h with h
        subst h
        rcases List.mem_append.1 hpr with h1 | h2
        · exact ⟨k, List.mem_cons_self k rest, t, hk, h1⟩
        · obtain ⟨k2, hk2, t2, ht2, h3⟩ := ih hrest h2
          exact ⟨k2, List.mem_cons_of_mem k hk2, t2, ht2, h3⟩

/-- Rounding to 3 decimals cannot take a similarity above 0.90 below 0.90. -/
theorem pyRound_ge (sim : ℚ) (h : 9/10 < sim) : 9/10 ≤ pyRound sim 3 := by
  have h1 : (900 : ℤ) ≤ ⌊sim * 10 ^ 3⌋ := by
    rw [Int.le_floor]
    push_cast
    linarith
  have h2 : (900 : ℤ) ≤ pyRoundInt (sim * 10 ^ 3) := le_trans h1 (pyRoundInt_ge_floor _)
  rw [pyRound, le_div_iff₀ (by norm_num : (0:ℚ) < 10 ^ 3)]
  have h4 : ((9:ℚ)/10) * 10 ^ 3 = 900 := by norm_num
  rw [h4]
  exact_mod_cast h2

/-- C5 counterexample: with a cosine collaborator returning 0.9001, the
matcher emits the pair (0.9001 > 0.90) but stores `round(0.9001, 3) = 0.900`,
which is not strictly greater than 0.90. -/
theorem C5_counterexample :
    match_markets_ai (fun _ => []) (fun _ _ => 9001/10000) [⟨some "a", none⟩]
        [⟨none, none, none, none⟩]
      = Except.ok [⟨"a", ⟨some "a", none⟩, ⟨none, none, none, none⟩,
          pyRound ((9001:ℚ)/10000) 3⟩] ∧
    pyRound ((9001:ℚ)/10000) 3 = 9/10 ∧ ¬((9:ℚ)/10 < 9/10) := by
  have hlt : (9:ℚ)/10 < 9001/10000 := by norm_num
  refine ⟨?_, ?_, by norm_num⟩
  · simp [match_markets_ai, aiOuter, aiInner, hlt]
  · have hv : ((9001:ℚ)/10000) * 10 ^ 3 = 9001/10 := by norm_num
    have hf : (⌊(9001:ℚ)/10⌋ : ℤ) = 900 := by
      norm_num [Int.floor_eq_iff]
    rw [pyRound, hv, pyRoundInt_of_fraclt _ 900 hf (by norm_num)]
    norm_num

/-- C5 (amended): a pair is emitted exactly on an unrounded cosine similarity
strictly above 0.90, and it carries that similarity rounded to 3 decimals —
which is always at least 0.90 but can equal 0.90 exactly (so the carried
figure need not be strictly greater); when every cross similarity is at most
0.90, nothing is emitted. -/
theorem C5_ai_threshold (embed : String → List ℚ) (cos : List ℚ → List ℚ → ℚ)
    (kalshi : List KalshiMarket) (polymarkets : List PolyMarket)
    (pairs : List MatchedPairAI)
    (h : match_markets_ai embed cos kalshi polymarkets = Except.ok pairs) :
    (∀ pr ∈ pairs, ∃ t, pr.kalshi.title = some t ∧ pr.kalshi ∈ kalshi ∧
      pr.polymarket ∈ polymarkets ∧
      9/10 < cos (embed t) (embed (extract_polymarket_title pr.polymarket)) ∧
      pr.similarity = pyRound (cos (embed t) (embed (extract_polymarket_title pr.polymarket))) 3 ∧
      9/10 ≤ pr.similarity) ∧
    ((∀ k ∈ kalshi, ∀ t, k.title = some t → ∀ p ∈ polymarkets,
        cos (embed t) (embed (extract_polymarket_title p)) ≤ 9/10) → pairs = []) := by
  constructor
  · intro pr hpr
    obtain ⟨k, hk, t, ht, hinner⟩ := aiOuter_mem h hpr
    obtain ⟨p, hp, hlt, hpr2⟩ := aiInner_mem hinner
    subst hpr2
    exact ⟨t, ht, hk, hp, hlt, rfl, pyRound_ge _ hlt⟩
  · intro hle
    rw [List.eq_nil_iff_forall_not_mem]
    intro pr hpr
    obtain ⟨k, hk, t, ht, hinner⟩ := aiOuter_mem h hpr
    obtain ⟨p, hp, hlt, _⟩ := aiInner_mem hinner
    exact absurd hlt (not_lt.2 (hle k hk t ht p hp))

/-- C5 witness: a similarity of 0.95 emits a pair whose carried (rounded)
similarity is at least 0.90. -/
theorem C5_ai_threshold_witness :
    match_markets_ai (fun _ => []) (fun _ _ => 19/20) [⟨some "a", none⟩]
        [⟨none, some "p", none, none⟩] = Except.ok [c5Pair] ∧
      9/10 ≤ c5Pair.similarity := by
  have hlt : (9:ℚ)/10 < 19/20 := by norm_num
  have hm : match_markets_ai (fun _ => []) (fun _ _ => 19/20) [⟨some "a", none⟩]
      [⟨none, some "p", none, none⟩] = Except.ok [c5Pair] := by
    simp [match_markets_ai, aiOuter, aiInner, hlt, c5Pair]
  obtain ⟨t, ht, _, _, _, _, hge⟩ :=
    (C5_ai_threshold (fun _ => []) (fun _ _ => 19/20) [⟨some "a", none⟩]
      [⟨none, some "p", none, none⟩] [c5Pair] hm).1 c5Pair (List.mem_cons_self c5Pair [])
  exact ⟨hm, hge⟩

/-! ## C8 -/

/-- Anatomy of a `noScan` hit: the price returned belongs to an outcome of the
list whose lowercased name is `"no"`. -/
theorem noScan_some {os : List PolyOutcome} {q : ℚ} (h : noScan os = some q) :
    ∃ o ∈ os, ∃ n, o.name = some n ∧ pyLowerStr n = "no" ∧ o.price = some q := by
  induction os with
  | nil => exact Option.noConfusion h
  | cons o rest ih =>
    unfold noScan at h
    cases hn : o.name with
    | none =>
      simp only [hn] at h
      exact Option.noConfusion h
    | some n =>
      simp only [hn] at h
      by_cases hlow : pyLowerStr n = "no"
      · rw [if_pos hlow] at h
        exact ⟨o, List.mem_cons_self o rest, n, hn, hlow, h⟩
      · rw [if_neg hlow] at h
        obtain ⟨o2, ho2, hrest⟩ := ih h
        exact ⟨o2, List.mem_cons_of_mem o ho2, hrest⟩

/-- When no outcome is named (case-insensitively) `"no"`, the scan yields
nothing. -/
theorem noScan_none {os : List PolyOutcome}
    (h : ∀ o ∈ os, ∀ n, o.name = some n → pyLowerStr n ≠ "no") : noScan os = none := by
  induction os with
  | nil => rfl
  | cons o rest ih =>
    unfold noScan
    cases hn : o.name with
    | none => rfl
    | some n =>
      show (if pyLowerStr n = "no" then o.price else noScan rest) = none
      rw [if_neg (h o (List.mem_cons_self o rest) n hn)]
      exact ih fun o2 ho2 => h o2 (List.mem_cons_of_mem o ho2)

/-- C8: both price extractors are total (`Option`-valued — every failure mode
is `none`, nothing raises); a YES-bid hit comes from the first-listed bid of
the order book's full path, and a NO-price hit is the price of an outcome
whose lowercased name is `"no"`, with `none` returned when no such outcome
exists. -/
theorem C8_extractors (m : KalshiMarket) (pm : PolyMarket) :
    (∀ q, get_kalshi_yes_bid m = some q → ∃ ob ys bs b, m.order_books = some ob ∧
      ob.yes = some ys ∧ ys.bids = some bs ∧ bs.head? = some b ∧ b.price = some q) ∧
    (∀ q, get_polymarket_no_price pm = some q → ∃ os, pm.outcomes = some os ∧
      ∃ o ∈ os, ∃ n, o.name = some n ∧ pyLowerStr n = "no" ∧ o.price = some q) ∧
    (∀ os, pm.outcomes = some os →
      (∀ o ∈ os, ∀ n, o.name = some n → pyLowerStr n ≠ "no") →
      get_polymarket_no_price pm = none) := by
  refine ⟨?_, ?_, ?_⟩
  · intro q hq
    unfold get_kalshi_yes_bid at hq
    rw [Option.bind_eq_some] at hq
    obtain ⟨ob, hob, hq⟩ := hq
    rw [Option.bind_eq_some] at hq
    obtain ⟨ys, hys, hq⟩ := hq
    rw [Option.bind_eq_some] at hq
    obtain ⟨bs, hbs, hq⟩ := hq
    rw [Option.bind_eq_some] at hq
    obtain ⟨b, hb, hq⟩ := hq
    exact ⟨ob, ys, bs, b, hob, hys, hbs, hb, hq⟩
  · intro q hq
    unfold get_polymarket_no_price at hq
    rw [Option.bind_eq_some] at hq
    obtain ⟨os, hos, hq⟩ := hq
    exact ⟨os, hos, noScan_some hq⟩
  · intro os hos h
    unfold get_polymarket_no_price
    rw [hos, Option.some_bind]
    exact noScan_none h

/-- C8 witness: on a Kalshi market with a full order-book path the extractor
returns the first-listed bid; on a Polymarket market whose only outcome is
`"Yes"` the NO-extractor returns `none`. -/
theorem C8_extractors_witness :
    (∃ ob ys bs b, c8Kalshi.order_books = some ob ∧ ob.yes = some ys ∧
      ys.bids = some bs ∧ bs.head? = some b ∧ b.price = some ((2:ℚ)/5)) ∧
    get_polymarket_no_price c8Poly = none := by
  refine ⟨(C8_extractors c8Kalshi c8Poly).1 (2/5) rfl, ?_⟩
  refine (C8_extractors c8Kalshi c8Poly).2.2 [⟨some "Yes", some (1/2)⟩] rfl ?_
  intro o ho n hn
  rw [List.mem_singleton] at ho
  subst ho
  injection hn with hn
  subst hn
  decide

/-! ## C9 -/

/-- The cache lookup agrees with the collaborator everywhere (found entries
were produced by embedding their own key; misses fall through). -/
theorem cachedEmbed_eq (embed : String → List ℚ) (ts : List String) :
    cachedEmbed embed (embedCache embed ts) = embed := by
  funext t
  unfold cachedEmbed
  cases hf : (embedCache embed ts).find? (fun e => e.1 == t) with
  | none => rfl
  | some e =>
    have he := List.mem_of_find?_eq_some hf
    have hp := List.find?_some hf
    unfold embedCache at he
    rw [List.mem_map] at he
    obtain ⟨t0, ht0, hee⟩ := he
    subst hee
    have ht : t0 = t := eq_of_beq hp
    subst ht
    rfl

/-- C9: with the embedding collaborator a pure function, the variant that
embeds each distinct title of the pass once and then reads the cache returns
exactly the match list of the as-written matcher that re-embeds titles per
combination — on every input. -/
theorem C9_cached_equiv (embed : String → List ℚ) (cos : List ℚ → List ℚ → ℚ)
    (kalshi : List KalshiMarket) (polymarkets : List PolyMarket) :
    match_markets_ai_cached embed cos kalshi polymarkets
      = match_markets_ai embed cos kalshi polymarkets := by
  unfold match_markets_ai_cached
  rw [cachedEmbed_eq]

/-! ## C10 -/

/-- C10: the embedding-strategy title extractor returns the first truthy
field among `question`, `title`, `slug` (Python truthiness: a missing key,
JSON null, or empty string falls through) and the literal `"unknown"` when
all three are falsy; consequently all title-less markets compare under the
same text `"unknown"`, and such a market is still matched — never dropped —
whenever its `"unknown"` embedding clears the threshold. -/
theorem C10_extract_title (m : PolyMarket) :
    (∀ s, m.question = some s → s ≠ "" → extract_polymarket_title m = s) ∧
    (pyTruthy m.question = false → ∀ s, m.title = some s → s ≠ "" →
      extract_polymarket_title m = s) ∧
    (pyTruthy m.question = false → pyTruthy m.title = false → ∀ s, m.slug = some s →
      s ≠ "" → extract_polymarket_title m = s) ∧
    (pyTruthy m.question = false → pyTruthy m.title = false → pyTruthy m.slug = false →
      extract_polymarket_title m = "unknown") ∧
    (∀ (embed : String → List ℚ) (cos : List ℚ → List ℚ → ℚ) (k : KalshiMarket)
      (t : String), k.title = some t →
      pyTruthy m.question = false → pyTruthy m.title = false → pyTruthy m.slug = false →
      9/10 < cos (embed t) (embed "unknown") →
      match_markets_ai embed cos [k] [m] = Except.ok
        [⟨t, k, m, pyRound (cos (embed t) (embed "unknown")) 3⟩]) := by
  refine ⟨?_, ?_, ?_, ?_, ?_⟩
  · intro s hq hs
    have ht : pyTruthy m.question = true := by
      rw [hq]
      simp [pyTruthy, hs]
    simp only [extract_polymarket_title, ht, if_true]
    rw [hq]
    rfl
  · intro hqf s htt hs
    have ht : pyTruthy m.title = true := by
      rw [htt]
      simp [pyTruthy, hs]
    simp only [extract_polymarket_title, hqf, ht, if_true, Bool.false_eq_true, if_false]
    rw [htt]
    rfl
  · intro hqf htf s hst hs
    have ht : pyTruthy m.slug = true := by
      rw [hst]
      simp [pyTruthy, hs]
    simp only [extract_polymarket_title, hqf, htf, ht, if_true, Bool.false_eq_true, if_false]
    rw [hst]
    rfl
  · intro hqf htf hsf
    simp [extract_polymarket_title, hqf, htf, hsf]
  · intro embed cos k t hk hqf htf hsf hlt
    have h4 : extract_polymarket_title m = "unknown" := by
      simp [extract_polymarket_title, hqf, htf, hsf]
    simp [match_markets_ai, aiOuter, aiInner, hk, h4, hlt]

/-- C10 witness: a market whose `title` is the empty string (falsy) and whose
other fields are absent compares as `"unknown"` and is still matched when the
similarity clears the threshold. -/
theorem C10_extract_title_witness :
    extract_polymarket_title c10Poly = "unknown" ∧
    match_markets_ai (fun _ => []) (fun _ _ => 1) [⟨some "kk", none⟩] [c10Poly]
      = Except.ok [⟨"kk", ⟨some "kk", none⟩, c10Poly, pyRound ((1:ℚ)) 3⟩] :=
  ⟨(C10_extract_title c10Poly).2.2.2.1 rfl rfl rfl,
    (C10_extract_title c10Poly).2.2.2.2 (fun _ => []) (fun _ _ => 1) ⟨some "kk", none⟩
      "kk" rfl rfl rfl rfl (by norm_num)⟩

end Arbdash
